import Mathlib

/-!
Shallow embedding of `code_implementation_5_3.py` (CBF/QP safety-filtered
go-to-goal controller for an omnidirectional robot), together with theorems
settling the specification claims.  Numeric quantities are modelled over ℝ;
`numpy` componentwise operations are spelled out on tuples; the loop of
`simulate_control` is a step function on an explicit record of the loop state.
-/

namespace MoRo5

/-- A 3-vector `(x, y, θ)` resp. `(vx, vy, ω)`, as used for poses and inputs. -/
abbrev Vec3 := ℝ × ℝ × ℝ

/-- Ts = 0.01 (line 7). -/
def Ts : ℝ := 0.01

/-- t_max = np.pi * 3 (line 8). -/
noncomputable def t_max : ℝ := Real.pi * 3

/-- init_state = [-2, -0.5, 0] (line 11). -/
def init_state : Vec3 := (-2, -0.5, 0)

/-- obstacle_state = [0, 0, 0.5] (line 12). -/
def obstacle_state : Vec3 := (0, 0, 0.5)

/-- v_trans_max = 0.5 (line 15). -/
def v_trans_max : ℝ := 0.5

/-- v_rot_max = 5 (line 16). -/
def v_rot_max : ℝ := 5

/-- robot_radius = 0.21 (line 17). -/
def robot_radius : ℝ := 0.21

/-- d_safe = obstacle radius + robot radius + 0.001 (line 18). -/
def d_safe : ℝ := obstacle_state.2.2 + robot_radius + 0.001

/-- beta = 5 (line 21). -/
def beta : ℝ := 5

/-- gamma = 10 (line 24). -/
def gamma : ℝ := 10

/-- desired_state = [2, 1, 0] (line 40). -/
def desired_state : Vec3 := (2, 1, 0)

/-- Python float modulo: `a % m = a - m * floor (a / m)` (used in lines 70 and 115). -/
noncomputable def pymod (a m : ℝ) : ℝ := a - m * (Int.floor (a / m) : ℝ)

/-- The wrap `((x + π) % (2π)) - π` applied to angles in lines 70 and 115. -/
noncomputable def wrapAngle (x : ℝ) : ℝ := pymod (x + Real.pi) (2 * Real.pi) - Real.pi

lemma pymod_eq_mul_fract (a m : ℝ) (hm : m ≠ 0) :
    pymod a m = m * Int.fract (a / m) := by
  unfold pymod
  have : Int.fract (a / m) = a / m - (Int.floor (a / m) : ℝ) := rfl
  rw [this]
  field_simp

lemma pymod_nonneg (a m : ℝ) (hm : 0 < m) : 0 ≤ pymod a m := by
  rw [pymod_eq_mul_fract a m hm.ne']
  exact mul_nonneg hm.le (Int.fract_nonneg _)

lemma pymod_lt (a m : ℝ) (hm : 0 < m) : pymod a m < m := by
  rw [pymod_eq_mul_fract a m hm.ne']
  calc m * Int.fract (a / m) < m * 1 :=
        (mul_lt_mul_left hm).mpr (Int.fract_lt_one _)
    _ = m := mul_one m

lemma wrapAngle_bounds (x : ℝ) :
    -Real.pi ≤ wrapAngle x ∧ wrapAngle x < Real.pi := by
  have hm : (0:ℝ) < 2 * Real.pi := by positivity
  unfold wrapAngle
  constructor
  · have h := pymod_nonneg (x + Real.pi) (2 * Real.pi) hm
    linarith
  · have h := pymod_lt (x + Real.pi) (2 * Real.pi) hm
    linarith

lemma wrapAngle_zero : wrapAngle 0 = 0 := by
  unfold wrapAngle pymod
  have hd : ((0:ℝ) + Real.pi) / (2 * Real.pi) = 1 / 2 := by
    rw [zero_add, div_eq_iff (by positivity : (2:ℝ) * Real.pi ≠ 0)]
    ring
  rw [hd]
  have hf : Int.floor ((1:ℝ) / 2) = 0 := by
    rw [Int.floor_eq_zero_iff]
    constructor <;> norm_num
  rw [hf]
  push_cast
  ring

lemma wrapAngle_pi : wrapAngle Real.pi = -Real.pi := by
  unfold wrapAngle pymod
  have hd : (Real.pi + Real.pi) / (2 * Real.pi) = 1 := by
    rw [div_eq_iff (by positivity : (2:ℝ) * Real.pi ≠ 0)]
    ring
  rw [hd, Int.floor_one]
  push_cast
  ring

/-- `np.linalg.norm` of a planar vector (line 71). -/
noncomputable def norm2 (v : ℝ × ℝ) : ℝ := Real.sqrt (v.1 ^ 2 + v.2 ^ 2)

/-- Scalar times a 3-vector (the `K_g * error` of line 74). -/
def smul3 (k : ℝ) (v : Vec3) : Vec3 := (k * v.1, k * v.2.1, k * v.2.2)

/-- Lines 69-70: `error = desired_state - robot_state`, angular component wrapped. -/
noncomputable def gtgError (p : Vec3) : Vec3 :=
  (desired_state.1 - p.1, desired_state.2.1 - p.2.1,
    wrapAngle (desired_state.2.2 - p.2.2))

/-- Line 71: `error_norm = np.linalg.norm(error[:2])`. -/
noncomputable def error_norm (p : Vec3) : ℝ :=
  norm2 ((gtgError p).1, (gtgError p).2.1)

/-- Line 72: the goal-seeking gain, as a function of the planar error norm. -/
noncomputable def K_g (r : ℝ) : ℝ :=
  v_trans_max * (1 - Real.exp (-beta * r)) / (r + 1e-10)

/-- Line 74: `u_gtg = K_g * error`. -/
noncomputable def u_gtg (p : Vec3) : Vec3 := smul3 (K_g (error_norm p)) (gtgError p)

/-- The planar part `u_gtg[:2]` handed to the QP via `c_mat` (line 81). -/
noncomputable def nominal_xy (p : Vec3) : ℝ × ℝ := ((u_gtg p).1, (u_gtg p).2.1)

/-- Line 83: `vector_to_obstacle = robot_state[:2] - obstacle_state[:2]`. -/
def vector_to_obstacle (p : Vec3) : ℝ × ℝ :=
  (p.1 - obstacle_state.1, p.2.1 - obstacle_state.2.1)

/-- Line 84: `H = -2 * vector_to_obstacle` (a 1×2 row). -/
def constraintH (p : Vec3) : ℝ × ℝ :=
  (-2 * (vector_to_obstacle p).1, -2 * (vector_to_obstacle p).2)

/-- Line 85: `b = gamma * (np.sum(vector_to_obstacle**2) - d_safe**2)`. -/
noncomputable def constraintb (p : Vec3) : ℝ :=
  gamma * ((vector_to_obstacle p).1 ^ 2 + (vector_to_obstacle p).2 ^ 2 - d_safe ^ 2)

/-- Dot product of a 1×2 row with a planar vector. -/
def dotp (a v : ℝ × ℝ) : ℝ := a.1 * v.1 + a.2 * v.2

/-- Squared Euclidean norm of a planar vector. -/
def normSq (v : ℝ × ℝ) : ℝ := v.1 ^ 2 + v.2 ^ 2

/-- Line 80: `Q_mat = 2 * I₂`, represented by its diagonal scale. -/
def Q_scale : ℝ := 2

/-- Line 81: `c_mat = -2 * u_gtg[:2]`. -/
def c_vec (u : ℝ × ℝ) : ℝ × ℝ := (-2 * u.1, -2 * u.2)

/-- The objective `(1/2)·vᵗQv + cᵗv` that `cvxopt.solvers.qp` minimizes,
instantiated with `Q_mat` and `c_mat` from lines 80-81. -/
noncomputable def qpObjective (u v : ℝ × ℝ) : ℝ :=
  1 / 2 * Q_scale * normSq v + dotp (c_vec u) v

/-- Modelled from the spec: `cvxopt.solvers.qp` (line 91) is external to the
repository; the spec requires a solver "guaranteeing a global optimum for this
convex problem", so a solution is modelled as a feasible point minimizing the
objective over the feasible set. -/
def IsQPSolution (u H : ℝ × ℝ) (b : ℝ) (v : ℝ × ℝ) : Prop :=
  dotp H v ≤ b ∧ ∀ w : ℝ × ℝ, dotp H w ≤ b → qpObjective u v ≤ qpObjective u w

/-- Modelled from the spec: closed form of the unique global minimizer that the
external `cvxopt` solver returns for the one-constraint tick QP — `u` itself
when the constraint is inactive, otherwise the projection of `u` onto the
halfspace boundary.  `qpSolve_isQPSolution` below proves it optimal. -/
noncomputable def qpSolve (u H : ℝ × ℝ) (b : ℝ) : ℝ × ℝ :=
  if dotp H u ≤ b then u
  else (u.1 - (dotp H u - b) / normSq H * H.1, u.2 - (dotp H u - b) / normSq H * H.2)

lemma qpObjective_eq (u v : ℝ × ℝ) :
    qpObjective u v = normSq (v - u) - normSq u := by
  unfold qpObjective Q_scale c_vec dotp normSq
  simp only [Prod.fst_sub, Prod.snd_sub]
  ring

lemma normSq_nonneg (v : ℝ × ℝ) : 0 ≤ normSq v := by
  unfold normSq
  positivity

/-- `qpSolve` really is a global minimizer of the tick QP. -/
theorem qpSolve_isQPSolution (u H : ℝ × ℝ) (b : ℝ) (hH : normSq H ≠ 0) :
    IsQPSolution u H b (qpSolve u H b) := by
  unfold qpSolve
  by_cases hub : dotp H u ≤ b
  · rw [if_pos hub]
    refine ⟨hub, fun w _ => ?_⟩
    rw [qpObjective_eq, qpObjective_eq]
    have h1 : normSq (u - u) = 0 := by simp [normSq]
    have h2 : 0 ≤ normSq (w - u) := normSq_nonneg _
    linarith
  · rw [if_neg hub]
    push_neg at hub
    have hS : 0 < normSq H :=
      lt_of_le_of_ne (normSq_nonneg H) (Ne.symm hH)
    constructor
    · show dotp H _ ≤ b
      unfold dotp normSq at hS ⊢
      have hcan : (dotp H u - b) / normSq H * normSq H = dotp H u - b :=
        div_mul_cancel₀ _ hH
      unfold dotp normSq at hcan
      nlinarith [hcan]
    · intro w hw
      rw [qpObjective_eq, qpObjective_eq]
      have key : normSq
          ((u.1 - (dotp H u - b) / normSq H * H.1,
            u.2 - (dotp H u - b) / normSq H * H.2) - u) ≤ normSq (w - u) := by
        set lam : ℝ := (dotp H u - b) / normSq H with hlam
        have hlampos : 0 < lam := div_pos (by linarith) hS
        have hcan : lam * normSq H = dotp H u - b := by
          rw [hlam]; exact div_mul_cancel₀ _ hH
        set a1 : ℝ := w.1 - u.1 with ha1
        set a2 : ℝ := w.2 - u.2 with ha2
        have hwa : H.1 * a1 + H.2 * a2 ≤ -(lam * normSq H) := by
          have hw' : H.1 * w.1 + H.2 * w.2 ≤ b := by
            simpa [dotp] using hw
          have hcan' : lam * normSq H = H.1 * u.1 + H.2 * u.2 - b := by
            rw [hcan]; simp [dotp]
          rw [ha1, ha2, hcan']
          linarith
        have hL : normSq ((u.1 - lam * H.1, u.2 - lam * H.2) - u)
            = lam ^ 2 * normSq H := by
          unfold normSq
          simp only [Prod.fst_sub, Prod.snd_sub]
          ring
        have hR : normSq (w - u) = a1 ^ 2 + a2 ^ 2 := by
          unfold normSq
          simp only [Prod.fst_sub, Prod.snd_sub]
        rw [hL, hR]
        have hlag : (a1 ^ 2 + a2 ^ 2) * normSq H
            = (H.1 * a1 + H.2 * a2) ^ 2 + (H.1 * a2 - H.2 * a1) ^ 2 := by
          unfold normSq
          ring
        have hsq : (lam * normSq H) ^ 2 ≤ (H.1 * a1 + H.2 * a2) ^ 2 := by
          have hneg : 0 < lam * normSq H := mul_pos hlampos hS
          nlinarith [hwa, hneg]
        have : lam ^ 2 * normSq H * normSq H ≤ (a1 ^ 2 + a2 ^ 2) * normSq H := by
          nlinarith [hlag, hsq, sq_nonneg (H.1 * a2 - H.2 * a1)]
        exact le_of_mul_le_mul_right (by linarith) hS
      linarith

/-- Line 92: `current_input = [sol['x'][0], sol['x'][1], 0]`, the QP output with
zero angular rate, as a function of the robot state the tick starts from. -/
noncomputable def qpVelocity (p : Vec3) : ℝ × ℝ :=
  qpSolve (nominal_xy p) (constraintH p) (constraintb p)

/-- The `current_input` of line 92 before actuator limiting. -/
noncomputable def current_input (p : Vec3) : Vec3 :=
  ((qpVelocity p).1, (qpVelocity p).2, 0)

/-- Line 95: `v_ratio = current_input[0] / (current_input[2] + current_input[1])`
(Lean's total real division; the divisor-zero case is flagged by
`actuatorLimiter`). -/
noncomputable def v_ratio_of (u : Vec3) : ℝ := u.1 / (u.2.2 + u.2.1)

/-- Lines 95-98: the actuator-limiting arithmetic.  `[1] := 0.5 / sqrt(1 + v_ratio²)`,
`[0] := v_ratio * [1]`, `[2] := min([2], 5 * Ts)`. -/
noncomputable def limitInput (u : Vec3) : Vec3 :=
  (v_ratio_of u * (0.5 / Real.sqrt (1 + v_ratio_of u ^ 2)),
    0.5 / Real.sqrt (1 + v_ratio_of u ^ 2),
    min u.2.2 (5 * Ts))

/-- The division of line 95 is fallible: an Option-valued embedding of
lines 95-98 that is `none` exactly when the divisor `ω + vy` is zero
(numpy emits a division-by-zero there, poisoning vx and vy). -/
noncomputable def actuatorLimiter (u : Vec3) : Option Vec3 :=
  if u.2.2 + u.2.1 = 0 then none else some (limitInput u)

/-- The loop-carried state of `simulate_control`: robot state, the five history
buffers (modelled as index-to-row maps, matching the pre-allocated arrays of
lines 42-48), and the tick counter. -/
structure SimSt where
  robot : Vec3
  state_history : ℕ → Vec3
  goal_history : ℕ → Vec3
  input_history : ℕ → Vec3
  error_history : ℕ → Vec3
  h_history : ℕ → ℝ × ℝ
  it : ℕ

/-- One iteration of the `for` loop (lines 61-115).  The Bool is `true` when the
`break` of line 76 fires; note lines 63-64 record state and goal history before
that check, and line 104 stores the row `H` into `h_history`. -/
noncomputable def simStep (s : SimSt) : SimSt × Bool :=
  if 0.005 ≤ error_norm s.robot then
    ({ robot := (s.robot.1 + Ts * (limitInput (current_input s.robot)).1,
         s.robot.2.1 + Ts * (limitInput (current_input s.robot)).2.1,
         wrapAngle (s.robot.2.2 + Ts * (limitInput (current_input s.robot)).2.2)),
       state_history := Function.update s.state_history s.it s.robot,
       goal_history := Function.update s.goal_history s.it desired_state,
       input_history := Function.update s.input_history s.it
         (limitInput (current_input s.robot)),
       error_history := Function.update s.error_history s.it (gtgError s.robot),
       h_history := Function.update s.h_history s.it (constraintH s.robot),
       it := s.it + 1 }, false)
  else
    ({ s with
       state_history := Function.update s.state_history s.it s.robot,
       goal_history := Function.update s.goal_history s.it desired_state }, true)

/-- The initial loop state (lines 39-48: `init_state` and zero-filled buffers). -/
def initSimSt : SimSt :=
  { robot := init_state,
    state_history := fun _ => (0, 0, 0),
    goal_history := fun _ => (0, 0, 0),
    input_history := fun _ => (0, 0, 0),
    error_history := fun _ => (0, 0, 0),
    h_history := fun _ => (0, 0),
    it := 0 }

/-- Running the loop for at most `n` iterations, stopping at the break. -/
noncomputable def runSim : ℕ → SimSt → SimSt
  | 0, s => s
  | n + 1, s => if (simStep s).2 then (simStep s).1 else runSim n (simStep s).1

/-- Line 36: `sim_iter = round(t_max / Ts)`. -/
noncomputable def sim_iter : ℕ := (round (t_max / Ts)).toNat

/-- Lines 35-123: the whole simulation. -/
noncomputable def simulate_control : SimSt := runSim sim_iter initSimSt

lemma sqrt_one_add_sq_pos (r : ℝ) : 0 < Real.sqrt (1 + r ^ 2) :=
  Real.sqrt_pos.mpr (by positivity)

lemma limitInput_vy_pos (u : Vec3) : 0 < (limitInput u).2.1 := by
  unfold limitInput
  exact div_pos (by norm_num) (sqrt_one_add_sq_pos _)

lemma limitInput_speed (u : Vec3) :
    norm2 ((limitInput u).1, (limitInput u).2.1) = v_trans_max := by
  unfold limitInput norm2 v_trans_max
  set r := v_ratio_of u with hr
  set s := Real.sqrt (1 + r ^ 2) with hsdef
  have hs2 : s ^ 2 = 1 + r ^ 2 := Real.sq_sqrt (by positivity)
  have hsne : s ≠ 0 := (sqrt_one_add_sq_pos r).ne'
  have key : (r * (0.5 / s)) ^ 2 + (0.5 / s) ^ 2 = (0.25 : ℝ) := by
    field_simp
    linarith [hs2]
  simp only [key]
  rw [show (0.25 : ℝ) = 0.5 ^ 2 by norm_num, Real.sqrt_sq (by norm_num : (0:ℝ) ≤ 0.5)]

lemma current_input_omega (p : Vec3) : (current_input p).2.2 = 0 := rfl

lemma limitInput_current_omega (p : Vec3) :
    (limitInput (current_input p)).2.2 = 0 := by
  show min (current_input p).2.2 (5 * Ts) = 0
  rw [current_input_omega]
  apply min_eq_left
  norm_num [Ts]

lemma error_norm_c2 : error_norm (0, 0, Real.pi) = Real.sqrt 5 := by
  unfold error_norm gtgError norm2 desired_state
  norm_num

lemma sqrt_five_large : (0.005 : ℝ) ≤ Real.sqrt 5 := by
  have hs := Real.sq_sqrt (by norm_num : (0:ℝ) ≤ 5)
  have hn := Real.sqrt_nonneg 5
  nlinarith

/-- C2: the claim's heading invariant is the interval `(-π, π]`, but the wrap
`((θ+π) % 2π) - π` of line 115 produces `[-π, π)`: from heading `π` and zero
angular input the updated heading is exactly `-π`, which is not in `(-π, π]`. -/
theorem heading_wrap_hits_neg_pi :
    (simStep { robot := (0, 0, Real.pi),
               state_history := fun _ => (0, 0, 0),
               goal_history := fun _ => (0, 0, 0),
               input_history := fun _ => (0, 0, 0),
               error_history := fun _ => (0, 0, 0),
               h_history := fun _ => (0, 0),
               it := 0 }).2 = false ∧
    (simStep { robot := (0, 0, Real.pi),
               state_history := fun _ => (0, 0, 0),
               goal_history := fun _ => (0, 0, 0),
               input_history := fun _ => (0, 0, 0),
               error_history := fun _ => (0, 0, 0),
               h_history := fun _ => (0, 0),
               it := 0 }).1.robot.2.2 = -Real.pi ∧
    ¬ (-Real.pi < -Real.pi) := by
  have hc : (0.005 : ℝ) ≤
      error_norm (((0 : ℝ), (0 : ℝ), Real.pi) : Vec3) := by
    rw [error_norm_c2]; exact sqrt_five_large
  unfold simStep
  rw [if_pos hc]
  refine ⟨rfl, ?_, lt_irrefl _⟩
  show wrapAngle (Real.pi + Ts * (limitInput (current_input (0, 0, Real.pi))).2.2)
      = -Real.pi
  rw [limitInput_current_omega]
  rw [show Real.pi + Ts * 0 = Real.pi by ring]
  exact wrapAngle_pi

/-- C2 (amended): on every non-break tick the state update is explicit Euler with
the recorded `ControlInput`, the heading additionally passing through the wrap of
line 115, after which it lies in the half-open interval `[-π, π)` (not `(-π, π]`
as claimed). -/
theorem step_euler_update_heading_range (s : SimSt) (h : (simStep s).2 = false) :
    (simStep s).1.robot.1
        = s.robot.1 + Ts * ((simStep s).1.input_history s.it).1 ∧
    (simStep s).1.robot.2.1
        = s.robot.2.1 + Ts * ((simStep s).1.input_history s.it).2.1 ∧
    (simStep s).1.robot.2.2
        = wrapAngle (s.robot.2.2 + Ts * ((simStep s).1.input_history s.it).2.2) ∧
    -Real.pi ≤ (simStep s).1.robot.2.2 ∧
    (simStep s).1.robot.2.2 < Real.pi := by
  unfold simStep at h ⊢
  by_cases hc : 0.005 ≤ error_norm s.robot
  · rw [if_pos hc]
    simp only [Function.update_same]
    exact ⟨trivial, trivial, trivial, (wrapAngle_bounds _).1, (wrapAngle_bounds _).2⟩
  · rw [if_neg hc] at h
    exact absurd h (by simp)

/-- A concrete non-terminal loop state used by witnesses: robot at `(2, 0, 0)`,
one length unit below the goal, constraint inactive there. -/
def w0 : SimSt :=
  { robot := (2, 0, 0),
    state_history := fun _ => (0, 0, 0),
    goal_history := fun _ => (0, 0, 0),
    input_history := fun _ => (0, 0, 0),
    error_history := fun _ => (0, 0, 0),
    h_history := fun _ => (0, 0),
    it := 0 }

lemma gtgError_w0 : gtgError (2, 0, 0) = (0, 1, 0) := by
  unfold gtgError desired_state
  norm_num [wrapAngle_zero]

lemma error_norm_w0 : error_norm (2, 0, 0) = 1 := by
  unfold error_norm
  rw [gtgError_w0]
  unfold norm2
  norm_num [Real.sqrt_one]

lemma Kg_one_pos : 0 < K_g 1 := by
  unfold K_g beta v_trans_max
  have he : Real.exp (-(5 : ℝ) * 1) < 1 := by
    rw [Real.exp_lt_one_iff]
    norm_num
  have h1 : (0 : ℝ) < 1 - Real.exp (-(5 : ℝ) * 1) := by linarith
  exact div_pos (mul_pos (by norm_num) h1) (by norm_num)

lemma constraintH_w0 : constraintH (2, 0, 0) = (-4, 0) := by
  unfold constraintH vector_to_obstacle obstacle_state
  norm_num

lemma nominal_w0 : nominal_xy (2, 0, 0) = (0, K_g 1) := by
  unfold nominal_xy u_gtg smul3
  rw [error_norm_w0, gtgError_w0]
  norm_num

lemma dotp_w0 : dotp (constraintH (2, 0, 0)) (nominal_xy (2, 0, 0))
    ≤ constraintb (2, 0, 0) := by
  rw [constraintH_w0, nominal_w0]
  simp only [dotp, constraintb, vector_to_obstacle, d_safe, gamma, robot_radius,
    obstacle_state]
  norm_num

lemma qpVelocity_w0 : qpVelocity (2, 0, 0) = (0, K_g 1) := by
  unfold qpVelocity qpSolve
  rw [if_pos dotp_w0, nominal_w0]

lemma current_input_w0 : current_input (2, 0, 0) = (0, K_g 1, 0) := by
  unfold current_input
  rw [qpVelocity_w0]

lemma limitInput_w0 : limitInput ((0 : ℝ), K_g 1, (0 : ℝ)) = (0, 0.5, 0) := by
  have hr : v_ratio_of ((0 : ℝ), K_g 1, (0 : ℝ)) = 0 := by
    unfold v_ratio_of
    simp
  unfold limitInput
  rw [hr]
  simp only [Prod.mk.injEq]
  refine ⟨by norm_num, by norm_num [Real.sqrt_one], ?_⟩
  show min (0 : ℝ) (5 * Ts) = 0
  apply min_eq_left
  norm_num [Ts]

lemma simStep_w0_cond : (0.005 : ℝ) ≤ error_norm w0.robot := by
  rw [show w0.robot = ((2 : ℝ), (0 : ℝ), (0 : ℝ)) from rfl, error_norm_w0]
  norm_num

lemma simStep_w0_false : (simStep w0).2 = false := by
  unfold simStep
  rw [if_pos simStep_w0_cond]

lemma simStep_w0_input :
    (simStep w0).1.input_history w0.it = ((0 : ℝ), (0.5 : ℝ), (0 : ℝ)) := by
  unfold simStep
  rw [if_pos simStep_w0_cond]
  show Function.update w0.input_history w0.it
      (limitInput (current_input w0.robot)) w0.it = _
  rw [Function.update_same,
    show w0.robot = ((2 : ℝ), (0 : ℝ), (0 : ℝ)) from rfl,
    current_input_w0, limitInput_w0]

/-- C2 witness: the amended per-tick Euler/heading theorem instantiated at the
concrete non-terminal loop state `w0`. -/
theorem step_euler_update_heading_range_witness :
    (simStep w0).1.robot.1
        = w0.robot.1 + Ts * ((simStep w0).1.input_history w0.it).1 ∧
    (simStep w0).1.robot.2.1
        = w0.robot.2.1 + Ts * ((simStep w0).1.input_history w0.it).2.1 ∧
    (simStep w0).1.robot.2.2
        = wrapAngle (w0.robot.2.2 + Ts * ((simStep w0).1.input_history w0.it).2.2) ∧
    -Real.pi ≤ (simStep w0).1.robot.2.2 ∧
    (simStep w0).1.robot.2.2 < Real.pi :=
  step_euler_update_heading_range w0 simStep_w0_false

/-- The invariant behind C9: heading zero and every recorded angular rate zero. -/
def headingInv (s : SimSt) : Prop :=
  s.robot.2.2 = 0 ∧ ∀ i, (s.input_history i).2.2 = 0

lemma simStep_preserves_headingInv (s : SimSt) (h : headingInv s) :
    headingInv (simStep s).1 := by
  obtain ⟨hθ, hin⟩ := h
  unfold simStep
  by_cases hc : 0.005 ≤ error_norm s.robot
  · rw [if_pos hc]
    refine ⟨?_, ?_⟩
    · show wrapAngle (s.robot.2.2 + Ts * (limitInput (current_input s.robot)).2.2) = 0
      rw [hθ, limitInput_current_omega, show (0 : ℝ) + Ts * 0 = 0 by ring]
      exact wrapAngle_zero
    · intro i
      show (Function.update s.input_history s.it
          (limitInput (current_input s.robot)) i).2.2 = 0
      rcases eq_or_ne i s.it with hi | hi
      · rw [hi, Function.update_same]
        exact limitInput_current_omega _
      · rw [Function.update_noteq hi]
        exact hin i
  · rw [if_neg hc]
    exact ⟨hθ, hin⟩

lemma runSim_preserves_headingInv (n : ℕ) :
    ∀ s : SimSt, headingInv s → headingInv (runSim n s) := by
  induction n with
  | zero => exact fun s h => h
  | succ n ih =>
      intro s h
      unfold runSim
      by_cases hb : (simStep s).2
      · rw [if_pos hb]
        exact simStep_preserves_headingInv s h
      · rw [if_neg hb]
        exact ih _ (simStep_preserves_headingInv s h)

/-- C9: throughout the run the angular-rate component of every recorded
`ControlInput` is exactly 0 (line 92 builds it with ω = 0 and the min clamp of
line 98 keeps it 0), and the robot heading stays equal to the initial heading
after every integration step. -/
theorem omega_zero_heading_constant (n : ℕ) :
    (runSim n initSimSt).robot.2.2 = init_state.2.2 ∧
    ∀ i, ((runSim n initSimSt).input_history i).2.2 = 0 := by
  have h0 : headingInv initSimSt := ⟨rfl, fun _ => rfl⟩
  have h := runSim_preserves_headingInv n initSimSt h0
  exact ⟨by rw [h.1]; rfl, h.2⟩

/-- C10: on any tick where the limiter's division is defined, the recorded
`ControlInput` has translational speed exactly `v_trans_max = 0.5` and a
strictly positive vy — the limiter rescales unconditionally. -/
theorem limited_input_speed_vy_pos (s : SimSt) (h : (simStep s).2 = false)
    (_hd : (current_input s.robot).2.1 + (current_input s.robot).2.2 ≠ 0) :
    norm2 (((simStep s).1.input_history s.it).1,
      ((simStep s).1.input_history s.it).2.1) = v_trans_max ∧
    0 < ((simStep s).1.input_history s.it).2.1 := by
  unfold simStep at h ⊢
  by_cases hc : 0.005 ≤ error_norm s.robot
  · rw [if_pos hc]
    simp only [Function.update_same]
    exact ⟨limitInput_speed _, limitInput_vy_pos _⟩
  · rw [if_neg hc] at h
    exact absurd h (by simp)

/-- C10 witness: the theorem applied at the concrete state `w0`, where the QP
output is `(0, K_g 1)` and the divisor is `K_g 1 ≠ 0`. -/
theorem limited_input_speed_vy_pos_witness :
    norm2 (((simStep w0).1.input_history w0.it).1,
      ((simStep w0).1.input_history w0.it).2.1) = v_trans_max ∧
    0 < ((simStep w0).1.input_history w0.it).2.1 :=
  limited_input_speed_vy_pos w0 simStep_w0_false (by
    rw [show w0.robot = ((2 : ℝ), (0 : ℝ), (0 : ℝ)) from rfl, current_input_w0]
    show K_g 1 + (0 : ℝ) ≠ 0
    rw [add_zero]
    exact Kg_one_pos.ne')

/-- C8: the limiter's rescaling divides `vx` by `ω + vy` with no guard; the
Option-valued embedding of the division is defined exactly when `vy + ω ≠ 0`,
and on that domain the ratio is characterized by `v_ratio · (ω + vy) = vx`. -/
theorem limiter_division_unguarded (u : Vec3) :
    ((actuatorLimiter u).isSome ↔ u.2.1 + u.2.2 ≠ 0) ∧
    (u.2.1 + u.2.2 ≠ 0 →
      v_ratio_of u * (u.2.2 + u.2.1) = u.1 ∧
      actuatorLimiter u = some (limitInput u)) := by
  unfold actuatorLimiter
  constructor
  · by_cases hz : u.2.2 + u.2.1 = 0
    · have hz' : u.2.1 + u.2.2 = 0 := by linarith
      simp [if_pos hz, hz']
    · have hz' : u.2.1 + u.2.2 ≠ 0 := fun hcon => hz (by linarith)
      simp [if_neg hz, hz']
  · intro hnz
    have hz : u.2.2 + u.2.1 ≠ 0 := fun hcon => hnz (by linarith)
    refine ⟨?_, by rw [if_neg hz]⟩
    unfold v_ratio_of
    exact div_mul_cancel₀ _ hz

/-- C8 witness: the division characterization at the concrete input `(1, 2, 0)`. -/
theorem limiter_division_unguarded_witness :
    (actuatorLimiter ((1 : ℝ), (2 : ℝ), (0 : ℝ))).isSome ∧
    v_ratio_of ((1 : ℝ), (2 : ℝ), (0 : ℝ)) * ((0 : ℝ) + 2) = 1 ∧
    actuatorLimiter ((1 : ℝ), (2 : ℝ), (0 : ℝ))
      = some (limitInput ((1 : ℝ), (2 : ℝ), (0 : ℝ))) := by
  have h := limiter_division_unguarded ((1 : ℝ), (2 : ℝ), (0 : ℝ))
  have hnz : (((1 : ℝ), (2 : ℝ), (0 : ℝ)) : Vec3).2.1
      + (((1 : ℝ), (2 : ℝ), (0 : ℝ)) : Vec3).2.2 ≠ 0 := by norm_num
  exact ⟨h.1.mpr hnz, (h.2 hnz).1, (h.2 hnz).2⟩

/-- C1: the claim states the limiter's intended contract (pass through below the
limit, preserve direction).  The code violates it: the input `(0.15, 0.2, 0)`
has planar norm `0.25 ≤ v_trans_max` yet is rescaled to `(0.3, 0.4, 0)`. -/
theorem limiter_rescales_small_input :
    norm2 ((0.15 : ℝ), (0.2 : ℝ)) = 0.25 ∧
    (0.25 : ℝ) ≤ v_trans_max ∧
    limitInput ((0.15 : ℝ), (0.2 : ℝ), (0 : ℝ)) = (0.3, 0.4, 0) ∧
    ((0.3 : ℝ), (0.4 : ℝ), (0 : ℝ)) ≠ ((0.15 : ℝ), (0.2 : ℝ), (0 : ℝ)) := by
  refine ⟨?_, by norm_num [v_trans_max], ?_, by norm_num [Prod.mk.injEq]⟩
  · unfold norm2
    rw [show (0.15 : ℝ) ^ 2 + (0.2 : ℝ) ^ 2 = 0.25 ^ 2 by norm_num,
      Real.sqrt_sq (by norm_num : (0 : ℝ) ≤ 0.25)]
  · have hr : v_ratio_of ((0.15 : ℝ), (0.2 : ℝ), (0 : ℝ)) = 0.75 := by
      unfold v_ratio_of
      norm_num
    have hs : Real.sqrt (1 + (0.75 : ℝ) ^ 2) = 1.25 := by
      rw [show (1 : ℝ) + (0.75 : ℝ) ^ 2 = 1.25 ^ 2 by norm_num,
        Real.sqrt_sq (by norm_num : (0 : ℝ) ≤ 1.25)]
    unfold limitInput
    rw [hr, hs]
    simp only [Prod.mk.injEq]
    refine ⟨by norm_num, by norm_num, ?_⟩
    show min (0 : ℝ) (5 * Ts) = 0
    apply min_eq_left
    norm_num [Ts]

/-- C3: on every state the Safety Constraint Builder produces exactly
`H = -2Δᵗ` and `b = γ(‖Δ‖² - d_safe²)` with `Δ` the vector from the obstacle
center to the robot position. -/
theorem constraint_builder_rows (p : Vec3) :
    constraintH p = (-2 * (p.1 - obstacle_state.1), -2 * (p.2.1 - obstacle_state.2.1)) ∧
    constraintb p = gamma * (norm2 (vector_to_obstacle p) ^ 2 - d_safe ^ 2) := by
  refine ⟨rfl, ?_⟩
  unfold constraintb norm2
  rw [Real.sq_sqrt (by positivity)]

/-- C4: whenever the nominal velocity already satisfies the constraint, any
global minimizer of the tick QP equals the nominal velocity exactly. -/
theorem qp_inactive_no_filtering (u H : ℝ × ℝ) (b : ℝ) (v : ℝ × ℝ)
    (hu : dotp H u ≤ b) (hv : IsQPSolution u H b v) : v = u := by
  obtain ⟨-, hmin⟩ := hv
  have h := hmin u hu
  rw [qpObjective_eq, qpObjective_eq] at h
  have h0 : normSq (u - u) = 0 := by simp [normSq]
  have h1 : normSq (v - u) ≤ 0 := by linarith
  have h2 : (v.1 - u.1) ^ 2 + (v.2 - u.2) ^ 2 ≤ 0 := by
    unfold normSq at h1
    simpa [Prod.fst_sub, Prod.snd_sub] using h1
  have hx : (v.1 - u.1) ^ 2 = 0 :=
    le_antisymm (by nlinarith [sq_nonneg (v.2 - u.2)]) (sq_nonneg _)
  have hy : (v.2 - u.2) ^ 2 = 0 :=
    le_antisymm (by nlinarith [sq_nonneg (v.1 - u.1)]) (sq_nonneg _)
  have hx' : v.1 = u.1 := sub_eq_zero.mp (pow_eq_zero_iff two_ne_zero |>.mp hx)
  have hy' : v.2 = u.2 := sub_eq_zero.mp (pow_eq_zero_iff two_ne_zero |>.mp hy)
  exact Prod.ext_iff.mpr ⟨hx', hy'⟩

/-- C4 witness: with `u = (1,0)`, `H = (1,0)`, `b = 2` the constraint is inactive,
`u` itself is a QP solution, and the theorem returns it unchanged. -/
theorem qp_inactive_no_filtering_witness :
    dotp ((1 : ℝ), (0 : ℝ)) ((1 : ℝ), (0 : ℝ)) ≤ 2 ∧
    (((1 : ℝ), (0 : ℝ)) : ℝ × ℝ) = ((1 : ℝ), (0 : ℝ)) := by
  have hu : dotp ((1 : ℝ), (0 : ℝ)) ((1 : ℝ), (0 : ℝ)) ≤ 2 := by norm_num [dotp]
  have hsol : IsQPSolution ((1 : ℝ), (0 : ℝ)) ((1 : ℝ), (0 : ℝ)) 2 ((1 : ℝ), (0 : ℝ)) := by
    refine ⟨hu, fun w hw => ?_⟩
    rw [qpObjective_eq, qpObjective_eq]
    have hnn := normSq_nonneg (w - ((1 : ℝ), (0 : ℝ)))
    have h0 : normSq ((((1 : ℝ), (0 : ℝ)) : ℝ × ℝ) - ((1 : ℝ), (0 : ℝ))) = 0 := by
      simp [normSq]
    linarith
  exact ⟨hu, qp_inactive_no_filtering _ _ _ _ hu hsol⟩

lemma error_norm_init : error_norm init_state = Real.sqrt 18.25 := by
  unfold error_norm gtgError norm2 desired_state init_state
  norm_num

lemma simStep_init_cond : (0.005 : ℝ) ≤ error_norm initSimSt.robot := by
  rw [show initSimSt.robot = init_state from rfl, error_norm_init]
  have hs := Real.sq_sqrt (show (0 : ℝ) ≤ 18.25 by norm_num)
  have hn := Real.sqrt_nonneg (18.25 : ℝ)
  nlinarith

/-- Modelled from the spec: the CBF candidate `h(p) = ‖p - o‖² - d_safe²` of
§4.2, which the spec says is duplicated into the logged 2-vector; the code
itself never computes this value (line 104 stores the row `H` instead). -/
noncomputable def barrier (p : Vec3) : ℝ :=
  norm2 (vector_to_obstacle p) ^ 2 - d_safe ^ 2

/-- C5: at tick 0 of the run the `h_history` entry is the constraint row
`H = (4, 1)`, not the duplicated barrier value `(h(p₀), h(p₀)) = (3.744479,
3.744479)` the claim describes. -/
theorem h_history_stores_H_row :
    (simStep initSimSt).1.h_history 0 = ((4 : ℝ), (1 : ℝ)) ∧
    barrier init_state = 3.744479 ∧
    ((4 : ℝ), (1 : ℝ)) ≠ ((3.744479 : ℝ), (3.744479 : ℝ)) := by
  refine ⟨?_, ?_, by norm_num [Prod.mk.injEq]⟩
  · unfold simStep
    rw [if_pos simStep_init_cond]
    show Function.update initSimSt.h_history 0 (constraintH initSimSt.robot) 0 = _
    rw [Function.update_same]
    show constraintH init_state = _
    unfold constraintH vector_to_obstacle obstacle_state init_state
    norm_num
  · simp only [barrier, norm2, vector_to_obstacle, d_safe, robot_radius,
      obstacle_state, init_state]
    rw [Real.sq_sqrt (by positivity)]
    norm_num

/-- A loop state whose robot already sits on the goal, triggering the break. -/
def c6s : SimSt :=
  { robot := (2, 1, 0),
    state_history := fun _ => (0, 0, 0),
    goal_history := fun _ => (0, 0, 0),
    input_history := fun _ => (0, 0, 0),
    error_history := fun _ => (0, 0, 0),
    h_history := fun _ => (0, 0),
    it := 0 }

lemma error_norm_c6 : error_norm ((2 : ℝ), (1 : ℝ), (0 : ℝ)) = 0 := by
  unfold error_norm gtgError norm2 desired_state
  norm_num

/-- C6 (amended): when the goal test fires, the loop breaks without integrating
the state, and the input, error and constraint-margin histories receive no entry
for that tick — but the state and goal histories do (lines 63-64 run first). -/
theorem goal_break_frame_effects (s : SimSt) (h : error_norm s.robot < 0.005) :
    (simStep s).2 = true ∧
    (simStep s).1.robot = s.robot ∧
    (simStep s).1.input_history = s.input_history ∧
    (simStep s).1.error_history = s.error_history ∧
    (simStep s).1.h_history = s.h_history ∧
    (simStep s).1.state_history = Function.update s.state_history s.it s.robot ∧
    (simStep s).1.goal_history = Function.update s.goal_history s.it desired_state := by
  unfold simStep
  rw [if_neg (not_le.mpr h)]
  exact ⟨rfl, rfl, rfl, rfl, rfl, rfl, rfl⟩

/-- C6 counterexample: at a state already on the goal the break fires, yet the
state history does receive an entry for that tick index, contradicting the
claim that none of the history buffers receives one. -/
theorem break_records_state_history :
    (simStep c6s).2 = true ∧
    (simStep c6s).1.state_history 0 = ((2 : ℝ), (1 : ℝ), (0 : ℝ)) ∧
    c6s.state_history 0 = ((0 : ℝ), (0 : ℝ), (0 : ℝ)) ∧
    ((2 : ℝ), (1 : ℝ), (0 : ℝ)) ≠ ((0 : ℝ), (0 : ℝ), (0 : ℝ)) := by
  have h : ¬ (0.005 : ℝ) ≤ error_norm c6s.robot := by
    rw [show c6s.robot = ((2 : ℝ), (1 : ℝ), (0 : ℝ)) from rfl, error_norm_c6]
    norm_num
  refine ⟨?_, ?_, rfl, by norm_num [Prod.mk.injEq]⟩
  · unfold simStep
    rw [if_neg h]
  · unfold simStep
    rw [if_neg h]
    show Function.update c6s.state_history 0 c6s.robot 0 = _
    rw [Function.update_same]
    rfl

/-- C6 witness: the amended break-effects theorem at the concrete state `c6s`. -/
theorem goal_break_frame_effects_witness :
    (simStep c6s).2 = true ∧
    (simStep c6s).1.robot = c6s.robot ∧
    (simStep c6s).1.input_history = c6s.input_history ∧
    (simStep c6s).1.error_history = c6s.error_history ∧
    (simStep c6s).1.h_history = c6s.h_history ∧
    (simStep c6s).1.state_history = Function.update c6s.state_history c6s.it c6s.robot ∧
    (simStep c6s).1.goal_history = Function.update c6s.goal_history c6s.it desired_state :=
  goal_break_frame_effects c6s (by
    rw [show c6s.robot = ((2 : ℝ), (1 : ℝ), (0 : ℝ)) from rfl, error_norm_c6]
    norm_num)

lemma tendsto_exp_neg_beta :
    Filter.Tendsto (fun r : ℝ => Real.exp (-beta * r)) Filter.atTop (nhds 0) := by
  have hb : Filter.Tendsto (fun r : ℝ => beta * r) Filter.atTop Filter.atTop :=
    (Filter.tendsto_const_mul_atTop_of_pos (by norm_num [beta])).mpr Filter.tendsto_id
  have hneg : Filter.Tendsto (fun r : ℝ => -(beta * r)) Filter.atTop Filter.atBot :=
    Filter.tendsto_neg_atTop_atBot.comp hb
  have h : Filter.Tendsto (fun r : ℝ => Real.exp (-(beta * r)))
      Filter.atTop (nhds 0) := Real.tendsto_exp_atBot.comp hneg
  simpa [neg_mul] using h

lemma Kg_tendsto_zero_atTop : Filter.Tendsto K_g Filter.atTop (nhds 0) := by
  have hnum : Filter.Tendsto (fun r : ℝ => v_trans_max * (1 - Real.exp (-beta * r)))
      Filter.atTop (nhds (v_trans_max * (1 - 0))) :=
    Filter.Tendsto.const_mul _ (Filter.Tendsto.const_sub _ tendsto_exp_neg_beta)
  have hden : Filter.Tendsto (fun r : ℝ => r + 1e-10) Filter.atTop Filter.atTop :=
    Filter.tendsto_atTop_add_const_right _ _ Filter.tendsto_id
  exact hnum.div_atTop hden

lemma Kg_tendsto_zero_right :
    Filter.Tendsto K_g (nhdsWithin 0 (Set.Ioi 0)) (nhds 0) := by
  have hc : ContinuousAt K_g 0 := by
    show ContinuousAt
      (fun r : ℝ => v_trans_max * (1 - Real.exp (-beta * r)) / (r + 1e-10)) 0
    apply ContinuousAt.div
    · fun_prop
    · fun_prop
    · norm_num
  have h0 : K_g 0 = 0 := by
    unfold K_g
    simp
  have h := hc.tendsto
  rw [h0] at h
  exact h.mono_left nhdsWithin_le_nhds

lemma Kg_mul_tendsto :
    Filter.Tendsto (fun r : ℝ => K_g r * r) Filter.atTop (nhds v_trans_max) := by
  have hfrac0 : Filter.Tendsto (fun r : ℝ => (1e-10 : ℝ) / (r + 1e-10))
      Filter.atTop (nhds 0) :=
    Filter.Tendsto.div_atTop tendsto_const_nhds
      (Filter.tendsto_atTop_add_const_right _ _ Filter.tendsto_id)
  have hfrac : Filter.Tendsto (fun r : ℝ => r / (r + 1e-10)) Filter.atTop (nhds 1) := by
    have h1 : Filter.Tendsto (fun r : ℝ => 1 - (1e-10 : ℝ) / (r + 1e-10))
        Filter.atTop (nhds 1) := by
      have := Filter.Tendsto.const_sub (1 : ℝ) hfrac0
      simpa using this
    refine h1.congr' ?_
    filter_upwards [Filter.eventually_gt_atTop (0 : ℝ)] with r hr
    have hne : r + 1e-10 ≠ 0 := by positivity
    field_simp
  have hexp1 : Filter.Tendsto (fun r : ℝ => 1 - Real.exp (-beta * r))
      Filter.atTop (nhds 1) := by
    have := Filter.Tendsto.const_sub (1 : ℝ) tendsto_exp_neg_beta
    simpa using this
  have hprod : Filter.Tendsto
      (fun r : ℝ => v_trans_max * ((1 - Real.exp (-beta * r)) * (r / (r + 1e-10))))
      Filter.atTop (nhds (v_trans_max * (1 * 1))) :=
    Filter.Tendsto.const_mul _ (hexp1.mul hfrac)
  rw [mul_one, mul_one] at hprod
  refine hprod.congr fun r => ?_
  unfold K_g
  ring

/-- C7 counterexample: neither limit claimed for the gain holds as stated — with
the 1e-10 regularizer `K_g` tends to 0 (not `v_trans_max`) as r → ∞, and to 0
(not `beta * v_trans_max`) as r → 0⁺. -/
theorem gain_limit_claims_false :
    ¬ Filter.Tendsto K_g Filter.atTop (nhds v_trans_max) ∧
    ¬ Filter.Tendsto K_g (nhdsWithin 0 (Set.Ioi 0)) (nhds (beta * v_trans_max)) := by
  constructor
  · intro hcon
    have h := tendsto_nhds_unique hcon Kg_tendsto_zero_atTop
    norm_num [v_trans_max] at h
  · intro hcon
    have h := tendsto_nhds_unique hcon Kg_tendsto_zero_right
    norm_num [beta, v_trans_max] at h

/-- C7 (amended): the planar nominal velocity handed to the QP equals
`K(r) · e_xy` with `r = ‖e_xy‖` and `K` exactly as in line 72; the resulting
speed `K(r)·r` saturates to `v_trans_max` as r → ∞, while `K` itself tends to 0
as r → 0⁺ (the 1e-10 regularizer dominates; `beta · v_trans_max` is only the
limit of the unregularized gain). -/
theorem nominal_velocity_gain_limits :
    (∀ p : Vec3, nominal_xy p =
      (K_g (norm2 (desired_state.1 - p.1, desired_state.2.1 - p.2.1))
          * (desired_state.1 - p.1),
        K_g (norm2 (desired_state.1 - p.1, desired_state.2.1 - p.2.1))
          * (desired_state.2.1 - p.2.1))) ∧
    Filter.Tendsto (fun r : ℝ => K_g r * r) Filter.atTop (nhds v_trans_max) ∧
    Filter.Tendsto K_g (nhdsWithin 0 (Set.Ioi 0)) (nhds 0) :=
  ⟨fun _ => rfl, Kg_mul_tendsto, Kg_tendsto_zero_right⟩

/-- `round(3π / 0.01) = 942`: the loop of line 61 runs at most 942 ticks. -/
lemma sim_iter_eq : sim_iter = 942 := by
  unfold sim_iter t_max Ts
  have hx : Real.pi * 3 / 0.01 = Real.pi * 300 := by
    rw [div_eq_iff (by norm_num : (0.01 : ℝ) ≠ 0)]
    ring
  rw [hx]
  have h1 : (3.141592 : ℝ) < Real.pi := Real.pi_gt_d6
  have h2 : Real.pi < 3.141593 := Real.pi_lt_d6
  have hr : round (Real.pi * 300) = (942 : ℤ) := by
    rw [round_eq]
    apply Int.floor_eq_iff.mpr
    constructor
    · push_cast
      nlinarith
    · push_cast
      nlinarith
  rw [hr]
  rfl

end MoRo5
